import Mathlib

/-!
Verification of the covdefaults coverage-plugin configurer.

The definitions below are a shallow embedding of `covdefaults.py`:
the settings store (`Config`), the constructor parsing
(`_parse_inst_pkg`), the source resolution (`setSourceLoop`), the
omit-pattern synthesis (`climbPatterns`, `defaultOmitAdds`) and the
full `configure` pipeline.  Python sets are modelled as `Finset String`
and `sorted` as `Finset.sort`; the ambient machine state (working
directory, directory listings, installed-library directories,
platform identity and the host tool's built-in exclusion list) is a
record `Env` of explicit oracles.
-/

/-- Splits a character list at every character satisfying `p`; the
separators are dropped and empty chunks are kept, matching Python's
`str.split(sep)` behaviour chunk-wise. -/
def splitOnPred (p : Char → Bool) : List Char → List (List Char)
  | [] => [[]]
  | c :: cs =>
    match splitOnPred p cs with
    | [] => [[]]
    | h :: t => if p c then [] :: h :: t else (c :: h) :: t

/-- Split at every occurrence of one character, like Python `s.split(c)`. -/
def splitOnCh (c : Char) (l : List Char) : List (List Char) :=
  splitOnPred (fun x => x == c) l

/-- Python `str.split()` with no argument: split on whitespace runs and
drop empty chunks. -/
def pySplitWs (s : String) : List String :=
  ((splitOnPred (fun c => c.isWhitespace) s.data).map String.mk).filter (fun x => x != "")

/-- Order-preserving removal of duplicates keeping the first occurrence,
like iterating into a Python `OrderedDict`/`dict`. -/
def firstDedupAux : List String → List String → List String
  | [], _ => []
  | x :: xs, seen => if x ∈ seen then firstDedupAux xs seen else x :: firstDedupAux xs (x :: seen)

/-- Keep-first deduplication of a list of strings. -/
def firstDedup (l : List String) : List String := firstDedupAux l []

/-- Predicate `leadMatch pat s` holds when `pat` is a leading run of `s`. -/
def leadMatch : List Char → List Char → Bool
  | [], _ => true
  | _ :: _, [] => false
  | p :: ps, c :: cs => p == c && leadMatch ps cs

/-- Predicate `occursIn pat s` holds when `pat` occurs contiguously inside `s`. -/
def occursIn (pat : List Char) : List Char → Bool
  | [] => leadMatch pat []
  | c :: cs => leadMatch pat (c :: cs) || occursIn pat cs

/-- Substring test on strings; models a regex match of `.*LITERAL.*`. -/
def strContainsSub (s pat : String) : Bool := occursIn pat.data s.data

/-- Python `str.startswith` on code points. -/
def strStarts (s pre : String) : Bool := leadMatch pre.data s.data

/-- Python `str.endswith` on code points. -/
def strEnds (s suf : String) : Bool := leadMatch suf.data.reverse s.data.reverse

/-- Python-dict insertion on an association list: replace the value in
place when the key is present, append otherwise. -/
def dictInsert {α : Type} (k : String) (v : α) : List (String × α) → List (String × α)
  | [] => [(k, v)]
  | (k', v') :: rest => if k' = k then (k, v) :: rest else (k', v') :: dictInsert k v rest

/-- Lookup in an association list (first binding wins, as in a dict
maintained by `dictInsert`). -/
def dictLookup {α : Type} (k : String) : List (String × α) → Option α
  | [] => none
  | (k', v) :: rest => if k' = k then some v else dictLookup k rest

/-- The keys of an association list are pairwise distinct. -/
def keysNodup {α : Type} (l : List (String × α)) : Prop := (l.map Prod.fst).Nodup

/-- Does `f` accept some suffix (itself included) of the list? -/
def sufAny (f : List Char → Bool) : List Char → Bool
  | [] => f []
  | c :: s => f (c :: s) || sufAny f s

/-- fnmatch-style glob matching where `*` matches any character
sequence (including separators) and every other character matches
itself; this is the semantics of Python's `fnmatch` on the patterns the
configurer synthesizes, which contain no other wildcard. -/
def gmatch : List Char → List Char → Bool
  | [], s => s.isEmpty
  | p :: ps, s =>
    if p = '*' then sufAny (gmatch ps) s
    else
      match s with
      | [] => false
      | c :: t => p == c && gmatch ps t

/-- Glob matching on strings. -/
def gmatchStr (pat s : String) : Bool := gmatch pat.data s.data

/-- Split an (absolute) path into its nonempty components. -/
def splitPath (s : String) : List String :=
  ((splitOnCh '/' s.data).map String.mk).filter (fun x => x != "")

/-- Normalize a component list the way `posixpath.normpath` does on an
absolute path: drop `.` components and resolve `..` against the
accumulated prefix. -/
def normComps (acc : List String) : List String → List String
  | [] => acc.reverse
  | c :: rest =>
    if c = "." then normComps acc rest
    else if c = ".." then
      match acc with
      | [] => normComps [] rest
      | _ :: accRest => normComps accRest rest
    else normComps (c :: acc) rest

/-- Python `os.path.abspath` relative to an explicit working directory. -/
def abspath (cwd p : String) : String :=
  let comps := if strStarts p "/" then splitPath p else splitPath cwd ++ splitPath p
  "/" ++ String.intercalate "/" (normComps [] comps)

/-- Python `os.path.join` for two POSIX path pieces. -/
def pjoin (a b : String) : String :=
  if strStarts b "/" then b
  else if a = "" then b
  else if strEnds a "/" then a ++ b
  else a ++ "/" ++ b

/-- Length of the longest shared leading run of two component lists,
as `os.path.commonprefix` computes on split paths. -/
def sharedLeadLen : List String → List String → Nat
  | x :: xs, y :: ys => if x = y then sharedLeadLen xs ys + 1 else 0
  | _, _ => 0

/-- The ambient machine state the plugin reads: working directory,
filesystem oracles, the interpreter's module search path, the two
install directories reported by `sysconfig`, the platform identity
triple, and the host coverage tool's built-in `DEFAULT_EXCLUDE` list. -/
structure Env where
  cwd : String
  listdir : String → List String
  isdir : String → Bool
  pexists : String → Bool
  sysPath : List String
  platlib : String
  purelib : String
  osName : String
  platform : String
  implName : String
  defaultExclude : List String

/-- The nine recognized tags of `_ALL`: two `os.name` values, five
`sys.platform` values, two `sys.implementation.name` values. -/
def _ALL : List String :=
  ["nt", "posix", "cygwin", "darwin", "linux", "msys", "win32", "cpython", "pypy"]

/-- A `# pragma: <tag> cover\b` exclusion regex. -/
def coverPat (tag : String) : String := "# pragma: " ++ tag ++ " cover\\b"

/-- A `# pragma: <tag> no cover\b` exclusion regex. -/
def noCoverPat (tag : String) : String := "# pragma: " ++ tag ++ " no cover\\b"

/-- The set `{os.name, sys.platform, sys.implementation.name}` as a
deduplicated list. -/
def pragmaTags (osName platform implName : String) : List String :=
  firstDedup [osName, platform, implName]

/-- The `cover` half of `_plat_impl_pragmas`: one pattern per `_ALL`
tag that is not part of the current identity. -/
def pragmasCover (osName platform implName : String) : List String :=
  (_ALL.filter (fun t => !(pragmaTags osName platform implName).contains t)).map coverPat

/-- The `no cover` half of `_plat_impl_pragmas`: one pattern per tag of
the current identity. -/
def pragmasNoCover (osName platform implName : String) : List String :=
  (pragmaTags osName platform implName).map noCoverPat

/-- Function `_plat_impl_pragmas` from the source: the `cover` patterns followed
by the `no cover` patterns. -/
def _plat_impl_pragmas (osName platform implName : String) : List String :=
  pragmasCover osName platform implName ++ pragmasNoCover osName platform implName

/-- The static part of the `EXTEND` table for `report:exclude_lines`. -/
def BASE_EXCLUDE : List String :=
  ["# pragma: no cover\\b",
   "^\\s*raise AssertionError\\b",
   "^\\s*raise NotImplementedError\\b",
   "^\\s*return NotImplemented\\b",
   "^\\s*raise$",
   "^if (False|TYPE_CHECKING):",
   ": \\.\\.\\.$",
   "^ +\\.\\.\\.$",
   "-> [\\\x27\"]?NoReturn[\\\x27\"]?:",
   "^if __name__ == [\\\x27\"]__main__[\\\x27\"]:$"]

/-- The full `EXTEND` default list for `report:exclude_lines`. -/
def EXTEND_exclude (env : Env) : List String :=
  BASE_EXCLUDE ++ _plat_impl_pragmas env.osName env.platform env.implName

/-- One whitespace-separated `installed_package` entry split the way
the constructor splits it: `key, value = entry, "."` overridden by
`entry.split(":")` exactly when the entry holds exactly one colon. -/
def entryKV (entry : String) : String × String :=
  if entry.data.countP (fun ch => ch == ':') = 1 then
    (((splitOnCh ':' entry.data).map String.mk).getD 0 entry,
     ((splitOnCh ':' entry.data).map String.mk).getD 1 ".")
  else (entry, ".")

/-- Static method `CovDefaults._parse_inst_pkg`: fold the whitespace-separated
entries into a dict, later entries overriding earlier ones. -/
def _parse_inst_pkg (s : String) : List (String × String) :=
  (pySplitWs s).foldl (fun result entry => dictInsert (entryKV entry).1 (entryKV entry).2 result) []

/-- The constructor state of the plugin: the parsed `subtract_omit`
list and the parsed `installed_package` dict. -/
structure CovDefaults where
  subtract_omit : List String
  installed_package : List (String × String)

/-- Constructor `CovDefaults.__init__` applied to its two string arguments. -/
def mkCovDefaults (subtractOmit installedPackage : String) : CovDefaults :=
  ⟨pySplitWs subtractOmit, _parse_inst_pkg installedPackage⟩

/-- The settings store: the options the plugin reads or writes, plus
the host's `paths` equivalence table. -/
@[ext] structure Config where
  run_source : Option (List String) := none
  run_omit : Option (List String) := none
  run_branch : Option Bool := none
  report_show_missing : Option Bool := none
  report_skip_covered : Option Bool := none
  report_fail_under : Option Int := none
  report_exclude_lines : Option (List String) := none
  paths : List (String × List String) := []
deriving DecidableEq

/-- Errors raised by `_set_source`, with the exact Python message
recoverable through `Err.message`. -/
inductive Err where
  | pkgNotFound (pkg : String)
  | srcPathMissing (srcPath atPath : String)
deriving DecidableEq

/-- The `RuntimeError` message text of each failure, as formatted by
the source. -/
def Err.message : Err → String
  | .pkgNotFound pkg => "could not find installed package " ++ pkg
  | .srcPathMissing srcPath atPath =>
      "source path " ++ srcPath ++ " for " ++ atPath ++ " does not exists"

/-- The ordered candidate directories for one package: the entries of
`sys.path` that are the platlib directory, the purelib directory or the
absolute destination, first occurrences kept. -/
def possDirOrd (env : Env) (dest : String) : List String :=
  firstDedup (env.sysPath.filter
    (fun i => i == env.platlib || i == env.purelib || i == abspath env.cwd dest))

/-- Try the `""` and `".py"` suffixes against one candidate base path,
returning the first that exists. -/
def findSuffix (env : Env) (base : String) : Option String :=
  if env.pexists base then some base
  else if env.pexists (base ++ ".py") then some (base ++ ".py") else none

/-- Scan the candidate directories for the package, returning the first
existing install location. -/
def findPkgIn (env : Env) (pkg : String) : List String → Option String
  | [] => none
  | path :: rest =>
    match findSuffix env (pjoin path pkg) with
    | some atp => some atp
    | none => findPkgIn env pkg rest

/-- The destination source path for a found install location: the bare
destination when the location is a file (a develop install), the
destination joined with the package name otherwise. -/
def srcPathOf (env : Env) (pkg dest atp : String) : String :=
  if env.pexists atp && !env.isdir atp then dest else pjoin dest pkg

/-- Resolve one `installed_package` entry: locate the install path,
compute the destination source path, and check it exists.  Returns the
install path and the destination source path, or the error the source
raises. -/
def resolveOne (env : Env) (pkg dest : String) : Except Err (String × String) :=
  match findPkgIn env pkg (possDirOrd env dest) with
  | none => .error (.pkgNotFound pkg)
  | some atp =>
    if env.pexists (srcPathOf env pkg dest atp) then .ok (atp, srcPathOf env pkg dest atp)
    else .error (.srcPathMissing (srcPathOf env pkg dest atp) atp)

/-- The package loop of `_set_source`: accumulate install locations
into `source` and destination mappings into `paths`, failing on the
first unresolvable entry. -/
def setSourceLoop (env : Env) :
    List (String × String) → List String → List (String × List String) →
      Except Err (List String × List (String × List String))
  | [], source, paths => .ok (source, paths)
  | (pkg, dest) :: rest, source, paths =>
    match resolveOne env pkg dest with
    | .error e => .error e
    | .ok (atp, srcPath) =>
        setSourceLoop env rest (source ++ [atp]) (dictInsert pkg [srcPath, atp] paths)

/-- Python `os.path.relpath(src, cwd)` split into path segments, as the omit
synthesis consumes it. -/
def relParts (env : Env) (src : String) : List String :=
  let s := splitPath (abspath env.cwd src)
  let c := splitPath (abspath env.cwd env.cwd)
  let k := sharedLeadLen s c
  let rel := List.replicate (c.length - k) ".." ++ s.drop k
  if rel = [] then ["."] else rel

/-- The glob pattern stem for one sibling entry at one climb level. -/
def mkClimbPat (level entry : String) : String := "*/" ++ level ++ "/" ++ entry

/-- One entry of one `os.listdir(level)` during the climb: skipped when
it is the on-path child; directories get a `/*` suffix; files are kept
only with a `.py` extension. -/
def climbEntry (env : Env) (level child entry : String) : Option String :=
  if entry = child then none
  else if env.isdir (pjoin level entry) then some (mkClimbPat level entry ++ "/*")
  else if strEnds entry ".py" then some (mkClimbPat level entry)
  else none

/-- The climb level at index `i`: the first `i` relative segments
joined back into a path. -/
def levelOf (parts : List String) (i : Nat) : String :=
  String.intercalate "/" (parts.take i)

/-- The tree-climb of `_fix_omit`: for every level strictly between the
working directory and the source root, collect one pattern per sibling
entry that survives `climbEntry`. -/
def climbPatterns (env : Env) (parts : List String) : List String :=
  (List.range' 1 (parts.length - 1)).flatMap (fun i =>
    (env.listdir (levelOf parts i)).filterMap
      (climbEntry env (levelOf parts i) (parts.getD i "")))

/-- The additions of one iteration of the folder loop of `_fix_omit`:
the climb patterns of the first source entry containing the folder, or
the single coarse pattern when no source entry does. -/
def oneFolderAdds (env : Env) (source : List String) (folder : String) (isPref : Bool) :
    Finset String :=
  match source.find? (fun src => strContainsSub src ("/" ++ folder ++ "/")) with
  | some src => (climbPatterns env (relParts env src)).toFinset
  | none => {"*/" ++ folder ++ (if isPref then "*" else "") ++ "/*"}

/-- Everything `_fix_omit` adds to the caller's omit set: the two fixed
filename patterns and the folder-loop additions for `.tox` (exact) and
`venv` (name-prefixed). -/
def defaultOmitAdds (env : Env) (source : List String) : Finset String :=
  {"*/setup.py", "*/__main__.py"} ∪
    oneFolderAdds env source ".tox" false ∪ oneFolderAdds env source "venv" true

/-- Python `sorted` on a set of strings. -/
def sortF (s : Finset String) : List String := Finset.sort (fun a b => a ≤ b) s

/-- The unconditional scalar overrides of the `OPTIONS` loop. -/
def setScalars (cfg : Config) : Config :=
  { cfg with run_branch := some true, report_show_missing := some true,
             report_skip_covered := some true }

/-- The `EXTEND` loop: union the exclusion defaults into the caller's
`report:exclude_lines` and store the sorted result. -/
def extendExcludes (env : Env) (cfg : Config) : Config :=
  { cfg with
    report_exclude_lines :=
      some (sortF ((cfg.report_exclude_lines.getD []).toFinset ∪ (EXTEND_exclude env).toFinset)) }

/-- Method `_fix_omit`: union the synthesized defaults into the caller's omit
set, subtract the constructor's subtract-list, and store sorted. -/
def fixOmit (c : CovDefaults) (env : Env) (cfg : Config) : Config :=
  { cfg with
    run_omit :=
      some (sortF (((cfg.run_omit.getD []).toFinset ∪
        defaultOmitAdds env (cfg.run_source.getD [])) \ c.subtract_omit.toFinset)) }

/-- Removal of the host's built-in `DEFAULT_EXCLUDE` patterns from the
merged exclusion list. -/
def removeDefaultExclude (env : Env) (cfg : Config) : Config :=
  { cfg with
    report_exclude_lines :=
      some (sortF ((cfg.report_exclude_lines.getD []).toFinset \ env.defaultExclude.toFinset)) }

/-- Python truthiness of the `report:fail_under` option: unset and zero
are falsy. -/
def failUnderTruthy : Option Int → Bool
  | none => false
  | some v => v != 0

/-- The final `fail_under` step: honor a truthy caller value, default
to 100 otherwise. -/
def fixFailUnder (cfg : Config) : Config :=
  if failUnderTruthy cfg.report_fail_under then cfg
  else { cfg with report_fail_under := some 100 }

/-- Every `configure` stage after `_set_source`, in source order. -/
def afterSource (c : CovDefaults) (env : Env) (cfg : Config) : Config :=
  fixFailUnder (removeDefaultExclude env (fixOmit c env (extendExcludes env (setScalars cfg))))

/-- Method `CovDefaults.configure`: resolve and set `run:source` and `paths`,
then apply the scalar, exclusion, omit and fail-under stages. -/
def configure (c : CovDefaults) (env : Env) (cfg : Config) : Except Err Config :=
  match setSourceLoop env c.installed_package [] cfg.paths with
  | .error e => .error e
  | .ok (source, paths) =>
      .ok (afterSource c env
        { cfg with run_source := some (source ++ [env.cwd]), paths := paths })

/-- Membership in a sorted set is membership in the set. -/
lemma sortF_mem {s : Finset String} {x : String} : x ∈ sortF s ↔ x ∈ s :=
  Finset.mem_sort _

/-- Sorting a set and collecting the elements again is the identity. -/
lemma sortF_toFinset (s : Finset String) : (sortF s).toFinset = s :=
  Finset.sort_toFinset _ s

/-- Re-unioning the defaults and re-subtracting after a first
union-and-subtract changes nothing. -/
lemma union_sdiff_stable (a d b : Finset String) :
    ((a ∪ d) \ b ∪ d) \ b = (a ∪ d) \ b := by
  ext x
  simp only [Finset.mem_sdiff, Finset.mem_union]
  tauto

/-- Stage `fixFailUnder` only possibly writes `report:fail_under`. -/
lemma fixFailUnder_run_source (cfg : Config) : (fixFailUnder cfg).run_source = cfg.run_source := by
  unfold fixFailUnder
  split <;> rfl

/-- Stage `fixFailUnder` leaves the omit list alone. -/
lemma fixFailUnder_run_omit (cfg : Config) : (fixFailUnder cfg).run_omit = cfg.run_omit := by
  unfold fixFailUnder
  split <;> rfl

/-- Stage `fixFailUnder` leaves the exclusion list alone. -/
lemma fixFailUnder_exclude (cfg : Config) :
    (fixFailUnder cfg).report_exclude_lines = cfg.report_exclude_lines := by
  unfold fixFailUnder
  split <;> rfl

/-- Stage `fixFailUnder` leaves the paths table alone. -/
lemma fixFailUnder_paths (cfg : Config) : (fixFailUnder cfg).paths = cfg.paths := by
  unfold fixFailUnder
  split <;> rfl

/-- Stage `fixFailUnder` writes 100 exactly when the stored value is falsy. -/
lemma fixFailUnder_fail (cfg : Config) :
    (fixFailUnder cfg).report_fail_under =
      if failUnderTruthy cfg.report_fail_under then cfg.report_fail_under else some 100 := by
  unfold fixFailUnder
  split <;> simp_all

/-- The stages after `_set_source` do not touch `run:source`. -/
lemma afterSource_run_source (c : CovDefaults) (env : Env) (cfg : Config) :
    (afterSource c env cfg).run_source = cfg.run_source := by
  unfold afterSource
  rw [fixFailUnder_run_source]
  rfl

/-- The stages after `_set_source` do not touch `paths`. -/
lemma afterSource_paths (c : CovDefaults) (env : Env) (cfg : Config) :
    (afterSource c env cfg).paths = cfg.paths := by
  unfold afterSource
  rw [fixFailUnder_paths]
  rfl

/-- The final omit value in terms of the incoming store. -/
lemma afterSource_run_omit (c : CovDefaults) (env : Env) (cfg : Config) :
    (afterSource c env cfg).run_omit =
      some (sortF (((cfg.run_omit.getD []).toFinset ∪
        defaultOmitAdds env (cfg.run_source.getD [])) \ c.subtract_omit.toFinset)) := by
  unfold afterSource
  rw [fixFailUnder_run_omit]
  rfl

/-- The final exclusion value in terms of the incoming store. -/
lemma afterSource_exclude (c : CovDefaults) (env : Env) (cfg : Config) :
    (afterSource c env cfg).report_exclude_lines =
      some (sortF (((cfg.report_exclude_lines.getD []).toFinset ∪
        (EXTEND_exclude env).toFinset) \ env.defaultExclude.toFinset)) := by
  unfold afterSource
  rw [fixFailUnder_exclude]
  show some (sortF ((sortF ((cfg.report_exclude_lines.getD []).toFinset ∪
      (EXTEND_exclude env).toFinset)).toFinset \ env.defaultExclude.toFinset)) = _
  rw [sortF_toFinset]

/-- The final fail-under value in terms of the incoming store. -/
lemma afterSource_fail_under (c : CovDefaults) (env : Env) (cfg : Config) :
    (afterSource c env cfg).report_fail_under =
      if failUnderTruthy cfg.report_fail_under then cfg.report_fail_under else some 100 := by
  unfold afterSource
  rw [fixFailUnder_fail]
  rfl

/-- Successful configuration decomposes into a successful source
resolution followed by the pure stages. -/
lemma configure_ok_elim {c : CovDefaults} {env : Env} {cfg cfg' : Config}
    (h : configure c env cfg = .ok cfg') :
    ∃ s q, setSourceLoop env c.installed_package [] cfg.paths = .ok (s, q) ∧
      cfg' = afterSource c env { cfg with run_source := some (s ++ [env.cwd]), paths := q } := by
  unfold configure at h
  split at h
  · cases h
  · rename_i s q heq
    cases h
    exact ⟨s, q, heq, rfl⟩

/-- A successful source resolution yields a successful configuration. -/
lemma configure_ok_intro {c : CovDefaults} {env : Env} {cfg : Config} {s : List String}
    {q : List (String × List String)}
    (h : setSourceLoop env c.installed_package [] cfg.paths = .ok (s, q)) :
    configure c env cfg =
      .ok (afterSource c env { cfg with run_source := some (s ++ [env.cwd]), paths := q }) := by
  unfold configure
  rw [h]

/-- A minimal concrete machine: empty working directory `/r`, empty
filesystem, Linux/CPython identity, no host default excludes. -/
def env0 : Env :=
  { cwd := "/r", listdir := fun _ => [], isdir := fun _ => false, pexists := fun _ => false,
    sysPath := [], platlib := "/pl", purelib := "/pu",
    osName := "posix", platform := "linux", implName := "cpython", defaultExclude := [] }

/-- A plugin constructed with no options. -/
def covD0 : CovDefaults := ⟨[], []⟩

/-- A store whose caller pre-configured `run:source`. -/
def cfgPreSource : Config := { run_source := some ["/tmp/foo"] }

/-- C1: the code overwrites a caller-set `run:source`.  On a store
pre-seeded with `run:source = ["/tmp/foo"]`, `configure` succeeds and
leaves `run:source = ["/r"]` (the working directory), not the caller's
value — contradicting the spec sentence and the repository's own test
`test_source_already_set`, which assert the caller's value is kept. -/
theorem configure_clobbers_preset_run_source :
    ∃ cfg', configure covD0 env0 cfgPreSource = .ok cfg' ∧
      cfg'.run_source = some ["/r"] ∧ cfg'.run_source ≠ some ["/tmp/foo"] :=
  ⟨_, rfl, rfl, by decide⟩

/-- C4: a truthy (non-zero, non-absent) caller `report:fail_under`
survives `configure` unchanged; an unset or zero value becomes 100. -/
theorem fail_under_precedence (c : CovDefaults) (env : Env) (cfg cfg' : Config)
    (h : configure c env cfg = .ok cfg') :
    (∀ v : Int, cfg.report_fail_under = some v → v ≠ 0 →
        cfg'.report_fail_under = some v) ∧
      ((cfg.report_fail_under = none ∨ cfg.report_fail_under = some 0) →
        cfg'.report_fail_under = some 100) := by
  obtain ⟨s, q, _, rfl⟩ := configure_ok_elim h
  rw [afterSource_fail_under]
  constructor
  · intro v hv hnz
    have : ({ cfg with run_source := some (s ++ [env.cwd]), paths := q } : Config).report_fail_under
        = some v := hv
    rw [this]
    simp [failUnderTruthy, hnz]
  · intro hfalsy
    rcases hfalsy with hv | hv <;>
      · have : ({ cfg with run_source := some (s ++ [env.cwd]), paths := q } :
            Config).report_fail_under = _ := hv
        rw [this]
        simp [failUnderTruthy]

/-- C4 witness: a caller value of 42 survives configuring the empty
machine. -/
theorem fail_under_precedence_witness :
    ∃ cfg', configure covD0 env0 { report_fail_under := some 42 } = .ok cfg' ∧
      cfg'.report_fail_under = some 42 :=
  ⟨_, rfl, (fail_under_precedence covD0 env0 _ _ rfl).1 42 rfl (by decide)⟩

/-- C9: after any successful configure, `run:source` is the resolved
installed-package locations followed by the working directory; the
working directory is a member and the last element. -/
theorem run_source_ends_with_cwd (c : CovDefaults) (env : Env) (cfg cfg' : Config)
    (h : configure c env cfg = .ok cfg') :
    ∃ pkgSrcs q, setSourceLoop env c.installed_package [] cfg.paths = .ok (pkgSrcs, q) ∧
      cfg'.run_source = some (pkgSrcs ++ [env.cwd]) ∧
      (pkgSrcs ++ [env.cwd]).getLast? = some env.cwd ∧
      env.cwd ∈ pkgSrcs ++ [env.cwd] := by
  obtain ⟨s, q, hloop, rfl⟩ := configure_ok_elim h
  refine ⟨s, q, hloop, ?_, ?_, by simp⟩
  · rw [afterSource_run_source]
  · simp

/-- C9 witness: on the empty machine the final source list is exactly
the working directory. -/
theorem run_source_ends_with_cwd_witness :
    ∃ cfg' pkgSrcs, configure covD0 env0 {} = .ok cfg' ∧
      cfg'.run_source = some (pkgSrcs ++ [env0.cwd]) := by
  obtain ⟨s, q, hloop, hsrc, hlast, hmem⟩ :=
    run_source_ends_with_cwd covD0 env0 {} _ rfl
  exact ⟨_, s, rfl, hsrc⟩

/-- C3 counterexample: on a real but unrecognized platform tag
(`sys.platform = "freebsd"`), pragma generation emits 7 `cover`
patterns and 10 patterns in total, so the claimed "always exactly 6
cover / 9 total for every environment tag triple" is false. -/
theorem pragma_counts_fail_on_unrecognized_platform :
    (pragmasCover "posix" "freebsd" "cpython").length = 7 ∧
      ¬ (pragmasCover "posix" "freebsd" "cpython").length = 6 ∧
      (_plat_impl_pragmas "posix" "freebsd" "cpython").length = 10 := by
  decide

/-- C3 amended: when the three environment tags are drawn from the
recognized tag groups of `_ALL`, pragma generation yields exactly six
`cover` patterns and exactly three `no cover` patterns, and the `no
cover` tags are exactly the current (OS, platform, implementation)
identity. -/
theorem pragma_counts_for_recognized_tags (o p i : String)
    (ho : o ∈ ["nt", "posix"])
    (hp : p ∈ ["cygwin", "darwin", "linux", "msys", "win32"])
    (hi : i ∈ ["cpython", "pypy"]) :
    (pragmasCover o p i).length = 6 ∧
      pragmasNoCover o p i = [noCoverPat o, noCoverPat p, noCoverPat i] ∧
      (_plat_impl_pragmas o p i).length = 9 := by
  simp only [List.mem_cons, List.not_mem_nil, or_false] at ho hp hi
  rcases ho with rfl | rfl <;> rcases hp with rfl | rfl | rfl | rfl | rfl <;>
    rcases hi with rfl | rfl <;> exact ⟨by decide, by decide, by decide⟩

/-- C3 witness: the Linux/CPython identity gets 6 cover and 3 no-cover
patterns. -/
theorem pragma_counts_for_recognized_tags_witness :
    (pragmasCover "posix" "linux" "cpython").length = 6 ∧
      pragmasNoCover "posix" "linux" "cpython" =
        [noCoverPat "posix", noCoverPat "linux", noCoverPat "cpython"] ∧
      (_plat_impl_pragmas "posix" "linux" "cpython").length = 9 :=
  pragma_counts_for_recognized_tags "posix" "linux" "cpython"
    (by decide) (by decide) (by decide)

/-- C2: the final omit list is exactly
`sorted((existing ∪ synthesized defaults) minus subtracted)`: every
non-subtracted caller entry and every non-subtracted default is in the
result, and every subtracted literal is absent. -/
theorem omit_merge_formula (c : CovDefaults) (env : Env) (cfg cfg' : Config)
    (h : configure c env cfg = .ok cfg') :
    ∃ pkgSrcs q, setSourceLoop env c.installed_package [] cfg.paths = .ok (pkgSrcs, q) ∧
      cfg'.run_omit = some (sortF (((cfg.run_omit.getD []).toFinset ∪
        defaultOmitAdds env (pkgSrcs ++ [env.cwd])) \ c.subtract_omit.toFinset)) ∧
      (∀ x ∈ cfg.run_omit.getD [], x ∉ c.subtract_omit → x ∈ cfg'.run_omit.getD []) ∧
      (∀ x ∈ defaultOmitAdds env (pkgSrcs ++ [env.cwd]),
        x ∉ c.subtract_omit → x ∈ cfg'.run_omit.getD []) ∧
      (∀ x ∈ c.subtract_omit, x ∉ cfg'.run_omit.getD []) := by
  obtain ⟨s, q, hloop, rfl⟩ := configure_ok_elim h
  have homit : (afterSource c env
      { cfg with run_source := some (s ++ [env.cwd]), paths := q }).run_omit =
      some (sortF (((cfg.run_omit.getD []).toFinset ∪
        defaultOmitAdds env (s ++ [env.cwd])) \ c.subtract_omit.toFinset)) := by
    rw [afterSource_run_omit]
    rfl
  refine ⟨s, q, hloop, homit, ?_, ?_, ?_⟩
  · intro x hx hnsub
    rw [homit]
    simp only [Option.getD_some, sortF_mem, Finset.mem_sdiff, Finset.mem_union,
      List.mem_toFinset]
    exact ⟨Or.inl hx, by simpa using hnsub⟩
  · intro x hx hnsub
    rw [homit]
    simp only [Option.getD_some, sortF_mem, Finset.mem_sdiff, Finset.mem_union,
      List.mem_toFinset]
    exact ⟨Or.inr hx, by simpa using hnsub⟩
  · intro x hx
    rw [homit]
    simp only [Option.getD_some, sortF_mem, Finset.mem_sdiff, Finset.mem_union,
      List.mem_toFinset, not_and, not_not]
    intro _
    exact hx

/-- C2 witness: on the empty machine, the always-added default
`*/setup.py` reaches the final omit list. -/
theorem omit_merge_formula_witness :
    ∃ cfg', configure covD0 env0 {} = .ok cfg' ∧
      "*/setup.py" ∈ cfg'.run_omit.getD [] := by
  obtain ⟨s, q, hloop, homit, hkeep, hdef, hsub⟩ :=
    omit_merge_formula covD0 env0 {} _ rfl
  refine ⟨_, rfl, hdef "*/setup.py" ?_ (by decide)⟩
  have : s = [] := by
    cases hloop
    rfl
  subst this
  decide

/-- C6: no host built-in default exclusion pattern survives into the
final `report:exclude_lines`, while every other merged pattern (caller
entry or synthesized default) does. -/
theorem exclude_lines_default_removal (c : CovDefaults) (env : Env) (cfg cfg' : Config)
    (h : configure c env cfg = .ok cfg') :
    (∀ x ∈ cfg'.report_exclude_lines.getD [], x ∉ env.defaultExclude) ∧
      (∀ x, x ∈ cfg.report_exclude_lines.getD [] ∨ x ∈ EXTEND_exclude env →
        x ∉ env.defaultExclude → x ∈ cfg'.report_exclude_lines.getD []) := by
  obtain ⟨s, q, hloop, rfl⟩ := configure_ok_elim h
  have hexc : (afterSource c env
      { cfg with run_source := some (s ++ [env.cwd]), paths := q }).report_exclude_lines =
      some (sortF (((cfg.report_exclude_lines.getD []).toFinset ∪
        (EXTEND_exclude env).toFinset) \ env.defaultExclude.toFinset)) := by
    rw [afterSource_exclude]
  constructor
  · intro x hx
    rw [hexc] at hx
    simp only [Option.getD_some, sortF_mem, Finset.mem_sdiff, Finset.mem_union,
      List.mem_toFinset] at hx
    exact hx.2
  · intro x hx hnd
    rw [hexc]
    simp only [Option.getD_some, sortF_mem, Finset.mem_sdiff, Finset.mem_union,
      List.mem_toFinset]
    exact ⟨hx, hnd⟩

/-- C6 witness: with a caller-seeded pattern that is also a host
default, the final exclusion list on the empty machine avoids the
host's single default pattern. -/
theorem exclude_lines_default_removal_witness :
    ∃ cfg', configure covD0 env0 { report_exclude_lines := some ["^keep$"] } = .ok cfg' ∧
      "^keep$" ∈ cfg'.report_exclude_lines.getD [] := by
  obtain ⟨hclean, hkeep⟩ :=
    exclude_lines_default_removal covD0 env0 { report_exclude_lines := some ["^keep$"] } _ rfl
  exact ⟨_, rfl, hkeep "^keep$" (Or.inl (by decide)) (by decide)⟩

/-- Splitting never produces an empty chunk list. -/
lemma splitOnPred_ne_nil (p : Char → Bool) (l : List Char) : splitOnPred p l ≠ [] := by
  cases l with
  | nil => simp [splitOnPred]
  | cons c cs =>
    unfold splitOnPred
    rcases h : splitOnPred p cs with _ | ⟨hd, tl⟩
    · simp
    · show ¬(if p c = true then [] :: hd :: tl else (c :: hd) :: tl) = []
      split <;> simp

/-- The number of chunks is the number of separators plus one. -/
lemma splitOnPred_length (p : Char → Bool) (l : List Char) :
    (splitOnPred p l).length = l.countP p + 1 := by
  induction l with
  | nil => simp [splitOnPred]
  | cons c cs ih =>
    unfold splitOnPred
    rcases h : splitOnPred p cs with _ | ⟨hd, tl⟩
    · exact absurd h (splitOnPred_ne_nil p cs)
    · rw [h] at ih
      by_cases hpc : p c = true <;>
        simp [hpc, List.countP_cons] at ih ⊢ <;> omega

/-- Joining chunks back with the separator character. -/
def joinCh (c : Char) : List (List Char) → List Char
  | [] => []
  | [x] => x
  | x :: y :: t => x ++ c :: joinCh c (y :: t)

/-- Prepending a character to the first chunk prepends it to the join. -/
lemma joinCh_cons (c x : Char) (h : List Char) (t : List (List Char)) :
    joinCh c ((x :: h) :: t) = x :: joinCh c (h :: t) := by
  cases t <;> rfl

/-- Splitting and re-joining on the same character is the identity. -/
lemma joinCh_splitOnCh (c : Char) (l : List Char) : joinCh c (splitOnCh c l) = l := by
  induction l with
  | nil => rfl
  | cons x xs ih =>
    unfold splitOnCh splitOnPred
    rcases h : splitOnPred (fun a => a == c) xs with _ | ⟨hd, tl⟩
    · exact absurd h (splitOnPred_ne_nil _ xs)
    · unfold splitOnCh at ih
      rw [h] at ih
      by_cases hxc : x = c
      · subst hxc
        show joinCh x (if (x == x) = true then [] :: hd :: tl else (x :: hd) :: tl) = x :: xs
        rw [if_pos (by simp)]
        show x :: joinCh x (hd :: tl) = x :: xs
        rw [ih]
      · show joinCh c (if (x == c) = true then [] :: hd :: tl else (x :: hd) :: tl) = x :: xs
        rw [if_neg (by simp [hxc])]
        rw [joinCh_cons, ih]

/-- Lookup after a dict insertion: the inserted key maps to the new
value, every other key is unaffected. -/
lemma dictLookup_dictInsert {α : Type} (k k' : String) (v : α) (l : List (String × α)) :
    dictLookup k (dictInsert k' v l) = if k' = k then some v else dictLookup k l := by
  induction l with
  | nil => rfl
  | cons a t ih =>
    obtain ⟨ka, va⟩ := a
    unfold dictInsert dictLookup
    by_cases h1 : ka = k'
    · subst h1
      by_cases h2 : ka = k <;> simp [h2, dictLookup]
    · by_cases h2 : ka = k
      · subst h2
        have : ¬ k' = ka := fun hh => h1 hh.symm
        simp [h1, this, dictLookup, ih]
      · simp [h1, h2, dictLookup, ih]

/-- Searching with `find?` over an append scans the left part first. -/
lemma find?_append_or {α : Type} (p : α → Bool) (l₁ l₂ : List α) :
    (l₁ ++ l₂).find? p =
      match l₁.find? p with
      | some x => some x
      | none => l₂.find? p := by
  induction l₁ with
  | nil => simp
  | cons a t ih =>
    by_cases hpa : p a = true <;> simp [List.find?_cons, hpa, ih]

/-- Folding dict insertions of mapped entries: the final binding of a
key is the image of the last entry mapping to it, and otherwise the
initial dict decides. -/
lemma dictLookup_foldl_insert (f : String → String × String) (k : String) :
    ∀ (l : List String) (init : List (String × String)),
      dictLookup k (l.foldl (fun r e => dictInsert (f e).1 (f e).2 r) init) =
        match (l.map f).reverse.find? (fun kv => kv.1 == k) with
        | some kv => some kv.2
        | none => dictLookup k init := by
  intro l
  induction l with
  | nil => intro init; rfl
  | cons e t ih =>
    intro init
    show dictLookup k (t.foldl _ (dictInsert (f e).1 (f e).2 init)) = _
    rw [ih]
    have happ : ((e :: t).map f).reverse = (t.map f).reverse ++ [f e] := by
      simp
    rw [happ, find?_append_or]
    rcases h : (t.map f).reverse.find? (fun kv => kv.1 == k) with _ | kv
    · simp only [h]
      rw [dictLookup_dictInsert]
      by_cases hek : (f e).1 = k
      · have hb : ((f e).1 == k) = true := by simpa using hek
        simp [List.find?, hb, hek]
      · have hb : ((f e).1 == k) = false := by simpa using hek
        simp [List.find?, hb, hek]
    · simp only [h]

/-- Modelled on the claim's wording for comparison with the source's
`entryKV`: an entry whose colon-split has exactly two pieces names a
(package, destination) pair; any other entry is taken whole as the
package name with destination `"."`. -/
def specEntrySplit (e : String) : String × String :=
  match (splitOnCh ':' e.data).map String.mk with
  | [k, v] => (k, v)
  | _ => (e, ".")

/-- The destination of the last whitespace-separated entry naming a
given package, per the claim's "a repeated package name keeps only the
last destination". -/
def lastSpecDest (s k : String) : Option String :=
  (((pySplitWs s).map specEntrySplit).reverse.find? (fun kv => kv.1 == k)).map
    (fun kv => kv.2)

/-- The source's count-guarded split agrees with the claim's
shape-guarded split on every entry. -/
lemma entryKV_eq_spec (e : String) : entryKV e = specEntrySplit e := by
  have hlen : (splitOnCh ':' e.data).length = e.data.countP (fun ch => ch == ':') + 1 :=
    splitOnPred_length _ _
  unfold entryKV specEntrySplit
  rcases hm : splitOnCh ':' e.data with _ | ⟨a, _ | ⟨b, _ | ⟨x, t⟩⟩⟩
  · rw [hm] at hlen
    simp only [List.length_nil] at hlen
    exact absurd hlen (by omega)
  · rw [hm] at hlen
    simp only [List.length_cons, List.length_nil] at hlen
    rw [if_neg (by omega)]
    rfl
  · rw [hm] at hlen
    simp only [List.length_cons, List.length_nil] at hlen
    rw [if_pos (by omega)]
    rfl
  · rw [hm] at hlen
    simp only [List.length_cons] at hlen
    rw [if_neg (by omega)]
    rfl

/-- C10: parsing the `installed_package` construction string.  The
final dict maps each package name to the destination of the *last*
entry naming it, where an entry with exactly one `:` splits into
(package, destination) — witnessed by the exact reconstruction
`entry = package ++ ":" ++ destination` — and every other entry
(no colon, or two or more colons) is taken whole with destination
`"."`. -/
theorem installed_package_parsing (s k : String) :
    dictLookup k (_parse_inst_pkg s) = lastSpecDest s k ∧
      (∀ e : String, e.data.countP (fun ch => ch == ':') = 1 →
        ∃ kc vc, splitOnCh ':' e.data = [kc, vc] ∧ e.data = kc ++ ':' :: vc ∧
          specEntrySplit e = (String.mk kc, String.mk vc)) ∧
      (∀ e : String, e.data.countP (fun ch => ch == ':') ≠ 1 →
        specEntrySplit e = (e, ".")) := by
  refine ⟨?_, ?_, ?_⟩
  · unfold _parse_inst_pkg lastSpecDest
    rw [dictLookup_foldl_insert entryKV k]
    rw [show entryKV = specEntrySplit from funext entryKV_eq_spec]
    rcases h : ((pySplitWs s).map specEntrySplit).reverse.find? (fun kv => kv.1 == k)
      with _ | kv
    · rw [h]
      rfl
    · rw [h]
      rfl
  · intro e hc
    have hlen : (splitOnCh ':' e.data).length = e.data.countP (fun ch => ch == ':') + 1 :=
      splitOnPred_length _ _
    rcases hm : splitOnCh ':' e.data with _ | ⟨kc, _ | ⟨vc, _ | ⟨x, t⟩⟩⟩
    · rw [hm] at hlen
      simp only [List.length_nil] at hlen
      exact absurd hlen (by omega)
    · rw [hm] at hlen
      simp only [List.length_cons, List.length_nil] at hlen
      exact absurd hc (by omega)
    · refine ⟨kc, vc, rfl, ?_, ?_⟩
      · have hj := joinCh_splitOnCh ':' e.data
        rw [hm] at hj
        exact hj.symm
      · unfold specEntrySplit
        rw [hm]
        rfl
    · rw [hm] at hlen
      simp only [List.length_cons] at hlen
      exact absurd hc (by omega)
  · intro e hc
    have hlen : (splitOnCh ':' e.data).length = e.data.countP (fun ch => ch == ':') + 1 :=
      splitOnPred_length _ _
    unfold specEntrySplit
    rcases hm : splitOnCh ':' e.data with _ | ⟨a, _ | ⟨b, _ | ⟨x, t⟩⟩⟩
    · rfl
    · rfl
    · rw [hm] at hlen
      simp only [List.length_cons, List.length_nil] at hlen
      exact absurd (by omega : e.data.countP (fun ch => ch == ':') = 1) hc
    · rfl

/-- C10 witness: `"a:b c a:d"` maps `a` to the last destination `d`;
`"a:b"` splits at its single colon; `"x:y:z"` is taken whole. -/
theorem installed_package_parsing_witness :
    dictLookup "a" (_parse_inst_pkg "a:b c a:d") = lastSpecDest "a:b c a:d" "a" ∧
      (∃ kc vc, splitOnCh ':' "a:b".data = [kc, vc] ∧
        "a:b".data = kc ++ ':' :: vc ∧
        specEntrySplit "a:b" = (String.mk kc, String.mk vc)) ∧
      specEntrySplit "x:y:z" = ("x:y:z", ".") :=
  ⟨(installed_package_parsing "a:b c a:d" "a").1,
   (installed_package_parsing "a:b c a:d" "a").2.1 "a:b" (by decide),
   (installed_package_parsing "a:b c a:d" "a").2.2 "x:y:z" (by decide)⟩

/-- A suffix search fails exactly when neither the bare base path nor
its `.py` variant exists. -/
lemma findSuffix_eq_none_iff (env : Env) (base : String) :
    findSuffix env base = none ↔
      env.pexists base = false ∧ env.pexists (base ++ ".py") = false := by
  unfold findSuffix
  split_ifs <;> simp_all

/-- The package search fails exactly when it fails in every candidate
directory. -/
lemma findPkgIn_eq_none_iff (env : Env) (pkg : String) (dirs : List String) :
    findPkgIn env pkg dirs = none ↔
      ∀ d ∈ dirs, findSuffix env (pjoin d pkg) = none := by
  induction dirs with
  | nil => simp [findPkgIn]
  | cons d rest ih =>
    unfold findPkgIn
    rcases h : findSuffix env (pjoin d pkg) with _ | atp
    · simp only [List.mem_cons]
      constructor
      · intro hrest x hx
        rcases hx with rfl | hx
        · exact h
        · exact (ih.mp hrest) x hx
      · intro hall
        exact ih.mpr (fun x hx => hall x (Or.inr hx))
    · simp only [List.mem_cons]
      constructor
      · intro hfalse
        cases hfalse
      · intro hall
        have := hall d (Or.inl rfl)
        rw [h] at this
        cases this

/-- Shape of a single-entry resolution failure: either the package was
found nowhere (a `pkgNotFound` error) or it was found but the computed
destination source path does not exist (a `srcPathMissing` error). -/
lemma resolveOne_error_elim {env : Env} {pkg dest : String} {e : Err}
    (h : resolveOne env pkg dest = .error e) :
    (e = .pkgNotFound pkg ∧
      ∀ d ∈ possDirOrd env dest,
        env.pexists (pjoin d pkg) = false ∧
          env.pexists (pjoin d pkg ++ ".py") = false) ∨
      (∃ atp, findPkgIn env pkg (possDirOrd env dest) = some atp ∧
        env.pexists (srcPathOf env pkg dest atp) = false ∧
        e = .srcPathMissing (srcPathOf env pkg dest atp) atp) := by
  unfold resolveOne at h
  rcases hf : findPkgIn env pkg (possDirOrd env dest) with _ | atp
  · rw [hf] at h
    injection h with h'
    left
    refine ⟨h'.symm, fun d hd => ?_⟩
    exact (findSuffix_eq_none_iff env _).mp ((findPkgIn_eq_none_iff env pkg _).mp hf d hd)
  · rw [hf] at h
    have h2 : (if env.pexists (srcPathOf env pkg dest atp) = true then
        Except.ok (atp, srcPathOf env pkg dest atp)
      else Except.error (Err.srcPathMissing (srcPathOf env pkg dest atp) atp)) =
        Except.error e := h
    by_cases hex : env.pexists (srcPathOf env pkg dest atp) = true
    · rw [if_pos hex] at h2
      cases h2
    · rw [if_neg hex] at h2
      injection h2 with h'
      right
      exact ⟨atp, rfl, by simpa using hex, h'.symm⟩

/-- A failing source loop pinpoints a failing entry with the same
error. -/
lemma setSourceLoop_error_elim (env : Env) :
    ∀ (es : List (String × String)) (src : List String)
      (p : List (String × List String)) (e : Err),
      setSourceLoop env es src p = .error e →
        ∃ pkg dest, (pkg, dest) ∈ es ∧ resolveOne env pkg dest = .error e := by
  intro es
  induction es with
  | nil =>
    intro src p e h
    cases h
  | cons pd rest ih =>
    intro src p e h
    obtain ⟨pkg, dest⟩ := pd
    unfold setSourceLoop at h
    rcases hr : resolveOne env pkg dest with er | ⟨atp, sp⟩
    · rw [hr] at h
      injection h with h'
      exact ⟨pkg, dest, by simp, by rw [hr, h']⟩
    · rw [hr] at h
      obtain ⟨pkg', dest', hmem, hres⟩ := ih _ _ _ h
      exact ⟨pkg', dest', by simp [hmem], hres⟩

/-- When every entry resolves, the source loop succeeds. -/
lemma setSourceLoop_ok_of_all (env : Env) :
    ∀ (es : List (String × String)) (src : List String)
      (p : List (String × List String)),
      (∀ pd ∈ es, ∃ v, resolveOne env pd.1 pd.2 = .ok v) →
        ∃ r, setSourceLoop env es src p = .ok r := by
  intro es
  induction es with
  | nil =>
    intro src p _
    exact ⟨(src, p), rfl⟩
  | cons pd rest ih =>
    intro src p hall
    obtain ⟨pkg, dest⟩ := pd
    obtain ⟨⟨atp, sp⟩, hres⟩ := hall (pkg, dest) (by simp)
    have hrest : ∀ pd ∈ rest, ∃ v, resolveOne env pd.1 pd.2 = .ok v :=
      fun pd hpd => hall pd (by simp [hpd])
    obtain ⟨r, hr⟩ := ih (src ++ [atp]) (dictInsert pkg [sp, atp] p) hrest
    refine ⟨r, ?_⟩
    unfold setSourceLoop
    rw [hres]
    exact hr

/-- When the source loop succeeds, every entry resolves. -/
lemma setSourceLoop_all_of_ok (env : Env) :
    ∀ (es : List (String × String)) (src : List String)
      (p : List (String × List String)) (r : List String × List (String × List String)),
      setSourceLoop env es src p = .ok r →
        ∀ pd ∈ es, ∃ v, resolveOne env pd.1 pd.2 = .ok v := by
  intro es
  induction es with
  | nil =>
    intro src p r _ pd hpd
    cases hpd
  | cons pd0 rest ih =>
    intro src p r h pd hpd
    obtain ⟨pkg, dest⟩ := pd0
    unfold setSourceLoop at h
    rcases hr : resolveOne env pkg dest with er | ⟨atp, sp⟩
    · rw [hr] at h
      cases h
    · rw [hr] at h
      rcases List.mem_cons.mp hpd with rfl | hpd'
      · exact ⟨(atp, sp), hr⟩
      · exact ih _ _ _ h pd hpd'

/-- Method `configure` fails with an error exactly when the source loop does. -/
lemma configure_error_iff_loop (c : CovDefaults) (env : Env) (cfg : Config) (e : Err) :
    configure c env cfg = .error e ↔
      setSourceLoop env c.installed_package [] cfg.paths = .error e := by
  unfold configure
  rcases h : setSourceLoop env c.installed_package [] cfg.paths with er | ⟨s, q⟩ <;> simp

/-- C7: `configure` raises only for installed-package resolution, and
exactly then.  (1) With no installed-package entries it succeeds.
(2) It succeeds iff every entry resolves.  (3) Any error pinpoints an
entry and is either a `pkgNotFound` for a package absent (under both
suffixes) from every candidate directory — with a message naming the
package — or a `srcPathMissing` for a located package whose computed
destination source path does not exist — with a message naming that
path. -/
theorem configure_error_contract (c : CovDefaults) (env : Env) (cfg : Config) :
    (c.installed_package = [] → ∃ cfg', configure c env cfg = .ok cfg') ∧
      ((∃ cfg', configure c env cfg = .ok cfg') ↔
        ∀ pd ∈ c.installed_package, ∃ v, resolveOne env pd.1 pd.2 = .ok v) ∧
      (∀ e, configure c env cfg = .error e →
        ∃ pkg dest, (pkg, dest) ∈ c.installed_package ∧
          ((e = .pkgNotFound pkg ∧
            (∀ d ∈ possDirOrd env dest,
              env.pexists (pjoin d pkg) = false ∧
                env.pexists (pjoin d pkg ++ ".py") = false) ∧
            e.message = "could not find installed package " ++ pkg) ∨
           (∃ atp, findPkgIn env pkg (possDirOrd env dest) = some atp ∧
              env.pexists (srcPathOf env pkg dest atp) = false ∧
              e = .srcPathMissing (srcPathOf env pkg dest atp) atp ∧
              e.message = "source path " ++ srcPathOf env pkg dest atp ++ " for " ++
                atp ++ " does not exists"))) := by
  refine ⟨?_, ⟨?_, ?_⟩, ?_⟩
  · intro hempty
    refine ⟨_, configure_ok_intro (s := []) (q := cfg.paths) ?_⟩
    rw [hempty]
    rfl
  · rintro ⟨cfg', h⟩
    obtain ⟨s, q, hloop, _⟩ := configure_ok_elim h
    exact setSourceLoop_all_of_ok env _ _ _ _ hloop
  · intro hall
    obtain ⟨⟨s, q⟩, hr⟩ := setSourceLoop_ok_of_all env c.installed_package [] cfg.paths hall
    exact ⟨_, configure_ok_intro hr⟩
  · intro e h
    obtain ⟨pkg, dest, hmem, hres⟩ :=
      setSourceLoop_error_elim env _ _ _ _ ((configure_error_iff_loop c env cfg e).mp h)
    rcases resolveOne_error_elim hres with ⟨he, hall⟩ | ⟨atp, hf, hex, he⟩
    · exact ⟨pkg, dest, hmem, Or.inl ⟨he, hall, by rw [he]; rfl⟩⟩
    · exact ⟨pkg, dest, hmem, Or.inr ⟨atp, hf, hex, he, by rw [he]; rfl⟩⟩

/-- C7 witness: with no installed packages the configurer succeeds on
the empty machine; with one unlocatable package it fails, and the
failure is pinned to that package with the exact message. -/
theorem configure_error_contract_witness :
    (∃ cfg', configure covD0 env0 {} = .ok cfg') ∧
      (∃ pkg dest, (pkg, dest) ∈ [("pkg", ".")] ∧
        ((Err.pkgNotFound "pkg" = .pkgNotFound pkg ∧
          (∀ d ∈ possDirOrd env0 dest,
            env0.pexists (pjoin d pkg) = false ∧
              env0.pexists (pjoin d pkg ++ ".py") = false) ∧
          (Err.pkgNotFound "pkg").message = "could not find installed package " ++ pkg) ∨
         (∃ atp, findPkgIn env0 pkg (possDirOrd env0 dest) = some atp ∧
            env0.pexists (srcPathOf env0 pkg dest atp) = false ∧
            Err.pkgNotFound "pkg" = .srcPathMissing (srcPathOf env0 pkg dest atp) atp ∧
            (Err.pkgNotFound "pkg").message = "source path " ++
              srcPathOf env0 pkg dest atp ++ " for " ++ atp ++ " does not exists"))) :=
  ⟨(configure_error_contract covD0 env0 {}).1 rfl,
   (configure_error_contract ⟨[], [("pkg", ".")]⟩ env0 {}).2.2 (.pkgNotFound "pkg") rfl⟩

/-- Stage `fixFailUnder` leaves `run:branch` alone. -/
lemma fixFailUnder_run_branch (cfg : Config) : (fixFailUnder cfg).run_branch = cfg.run_branch := by
  unfold fixFailUnder
  split <;> rfl

/-- Stage `fixFailUnder` leaves `report:show_missing` alone. -/
lemma fixFailUnder_show_missing (cfg : Config) :
    (fixFailUnder cfg).report_show_missing = cfg.report_show_missing := by
  unfold fixFailUnder
  split <;> rfl

/-- Stage `fixFailUnder` leaves `report:skip_covered` alone. -/
lemma fixFailUnder_skip_covered (cfg : Config) :
    (fixFailUnder cfg).report_skip_covered = cfg.report_skip_covered := by
  unfold fixFailUnder
  split <;> rfl

/-- Configuring always turns branch measurement on. -/
lemma afterSource_run_branch (c : CovDefaults) (env : Env) (cfg : Config) :
    (afterSource c env cfg).run_branch = some true := by
  unfold afterSource
  rw [fixFailUnder_run_branch]
  rfl

/-- Configuring always turns on missing-line reporting. -/
lemma afterSource_show_missing (c : CovDefaults) (env : Env) (cfg : Config) :
    (afterSource c env cfg).report_show_missing = some true := by
  unfold afterSource
  rw [fixFailUnder_show_missing]
  rfl

/-- Configuring always turns on skip-covered reporting. -/
lemma afterSource_skip_covered (c : CovDefaults) (env : Env) (cfg : Config) :
    (afterSource c env cfg).report_skip_covered = some true := by
  unfold afterSource
  rw [fixFailUnder_skip_covered]
  rfl

/-- Key membership after a dict insertion. -/
lemma mem_keys_dictInsert {α : Type} (k' k : String) (v : α) (l : List (String × α)) :
    k' ∈ (dictInsert k v l).map Prod.fst ↔ k' = k ∨ k' ∈ l.map Prod.fst := by
  induction l with
  | nil => simp [dictInsert]
  | cons a t ih =>
    obtain ⟨ka, va⟩ := a
    unfold dictInsert
    by_cases h1 : ka = k
    · subst h1
      simp
    · simp only [if_neg h1, List.map_cons, List.mem_cons, ih]
      tauto

/-- Dict insertion preserves key distinctness. -/
lemma keysNodup_dictInsert {α : Type} (k : String) (v : α) (l : List (String × α))
    (h : keysNodup l) : keysNodup (dictInsert k v l) := by
  induction l with
  | nil => simp [keysNodup, dictInsert]
  | cons a t ih =>
    obtain ⟨ka, va⟩ := a
    unfold keysNodup at h
    simp only [List.map_cons, List.nodup_cons] at h
    unfold dictInsert
    by_cases h1 : ka = k
    · subst h1
      unfold keysNodup
      rw [if_pos rfl]
      simp only [List.map_cons, List.nodup_cons]
      exact h
    · unfold keysNodup
      simp only [if_neg h1, List.map_cons, List.nodup_cons]
      refine ⟨?_, ih h.2⟩
      rw [mem_keys_dictInsert]
      push_neg
      exact ⟨h1, h.1⟩

/-- The parsed installed-package dict has pairwise-distinct keys. -/
lemma parse_keysNodup (s : String) : keysNodup (_parse_inst_pkg s) := by
  unfold _parse_inst_pkg
  generalize pySplitWs s = l
  have : ∀ (l : List String) (init : List (String × String)), keysNodup init →
      keysNodup (l.foldl (fun result entry =>
        dictInsert (entryKV entry).1 (entryKV entry).2 result) init) := by
    intro l
    induction l with
    | nil => intro init h; exact h
    | cons e t ih =>
      intro init h
      exact ih _ (keysNodup_dictInsert _ _ _ h)
  exact this l [] (by simp [keysNodup])

/-- Re-inserting a key's current binding is a no-op. -/
lemma dictInsert_noop {α : Type} (k : String) (v : α) (l : List (String × α))
    (h : dictLookup k l = some v) : dictInsert k v l = l := by
  induction l with
  | nil => cases h
  | cons a t ih =>
    obtain ⟨ka, va⟩ := a
    unfold dictInsert
    unfold dictLookup at h
    by_cases h1 : ka = k
    · rw [if_pos h1] at h
      injection h with h2
      rw [if_pos h1, h1, h2]
    · rw [if_neg h1] at h
      rw [if_neg h1, ih h]

/-- The source loop only ever writes keys of its entries: all other
keys keep their incoming bindings. -/
lemma setSourceLoop_lookup_stable (env : Env) :
    ∀ (es : List (String × String)) (src : List String)
      (p : List (String × List String)) s q (k : String),
      setSourceLoop env es src p = .ok (s, q) → ¬ k ∈ es.map Prod.fst →
        dictLookup k q = dictLookup k p := by
  intro es
  induction es with
  | nil =>
    intro src p s q k h _
    injection h with h'
    injection h' with h1 h2
    rw [h2]
  | cons pd rest ih =>
    intro src p s q k h hk
    obtain ⟨pkg, dest⟩ := pd
    simp only [List.map_cons, List.mem_cons] at hk
    push_neg at hk
    unfold setSourceLoop at h
    rcases hr : resolveOne env pkg dest with er | ⟨atp, sp⟩
    · rw [hr] at h
      cases h
    · rw [hr] at h
      rw [ih _ _ _ _ k h hk.2, dictLookup_dictInsert]
      rw [if_neg (fun hh => hk.1 hh.symm)]

/-- Re-running a successful source loop from its own output paths
reproduces exactly the same output. -/
lemma setSourceLoop_idem (env : Env) :
    ∀ (es : List (String × String)) (src : List String)
      (p : List (String × List String)) s q,
      keysNodup es → setSourceLoop env es src p = .ok (s, q) →
        setSourceLoop env es src q = .ok (s, q) := by
  intro es
  induction es with
  | nil =>
    intro src p s q _ h
    injection h with h'
    injection h' with h1 h2
    rw [← h1, ← h2]
    rfl
  | cons pd rest ih =>
    intro src p s q hnd h
    obtain ⟨pkg, dest⟩ := pd
    unfold keysNodup at hnd
    simp only [List.map_cons, List.nodup_cons] at hnd
    unfold setSourceLoop at h ⊢
    rcases hr : resolveOne env pkg dest with er | ⟨atp, sp⟩
    · rw [hr] at h
      cases h
    · rw [hr] at h
      have h2 : setSourceLoop env rest (src ++ [atp]) (dictInsert pkg [sp, atp] p) =
          .ok (s, q) := h
      have hq : dictLookup pkg q = some [sp, atp] := by
        rw [setSourceLoop_lookup_stable env rest _ _ s q pkg h2 hnd.1,
          dictLookup_dictInsert, if_pos rfl]
      show setSourceLoop env rest (src ++ [atp]) (dictInsert pkg [sp, atp] q) = .ok (s, q)
      rw [dictInsert_noop pkg [sp, atp] q hq]
      exact ih _ _ _ _ hnd.2 h2

/-- C5: configuring the same store twice with the same constructor
strings and the same machine yields exactly the store a single
configuration yields — every list-valued and scalar option included. -/
theorem configure_idempotent (subStr instStr : String) (env : Env) (cfg cfg1 : Config)
    (h : configure (mkCovDefaults subStr instStr) env cfg = .ok cfg1) :
    configure (mkCovDefaults subStr instStr) env cfg1 = .ok cfg1 := by
  obtain ⟨s, q, hloop, hcfg1⟩ := configure_ok_elim h
  have hpaths : cfg1.paths = q := by
    rw [hcfg1, afterSource_paths]
  have hsrc : cfg1.run_source = some (s ++ [env.cwd]) := by
    rw [hcfg1, afterSource_run_source]
  have homit1 : cfg1.run_omit = some (sortF (((cfg.run_omit.getD []).toFinset ∪
      defaultOmitAdds env (s ++ [env.cwd])) \
        (mkCovDefaults subStr instStr).subtract_omit.toFinset)) := by
    rw [hcfg1, afterSource_run_omit]
    rfl
  have hexcl1 : cfg1.report_exclude_lines =
      some (sortF (((cfg.report_exclude_lines.getD []).toFinset ∪
        (EXTEND_exclude env).toFinset) \ env.defaultExclude.toFinset)) := by
    rw [hcfg1, afterSource_exclude]
  have hfail1 : cfg1.report_fail_under =
      if failUnderTruthy cfg.report_fail_under then cfg.report_fail_under else some 100 := by
    rw [hcfg1, afterSource_fail_under]
  have hnd : keysNodup (mkCovDefaults subStr instStr).installed_package :=
    parse_keysNodup instStr
  have hloop2 : setSourceLoop env (mkCovDefaults subStr instStr).installed_package []
      cfg1.paths = .ok (s, q) := by
    rw [hpaths]
    exact setSourceLoop_idem env _ _ _ _ _ hnd hloop
  rw [configure_ok_intro hloop2]
  have hupd : ({ cfg1 with run_source := some (s ++ [env.cwd]), paths := q } : Config)
      = cfg1 := by
    rw [← hsrc, ← hpaths]
  rw [hupd]
  have hfinal : afterSource (mkCovDefaults subStr instStr) env cfg1 = cfg1 := by
    refine Config.ext ?_ ?_ ?_ ?_ ?_ ?_ ?_ ?_
    · rw [afterSource_run_source]
    · rw [afterSource_run_omit, homit1, hsrc]
      simp only [Option.getD_some, sortF_toFinset]
      rw [union_sdiff_stable]
    · rw [afterSource_run_branch, hcfg1, afterSource_run_branch]
    · rw [afterSource_show_missing, hcfg1, afterSource_show_missing]
    · rw [afterSource_skip_covered, hcfg1, afterSource_skip_covered]
    · rw [afterSource_fail_under, hfail1]
      by_cases hb : failUnderTruthy cfg.report_fail_under = true
      · simp only [hb, if_true]
      · have hb2 : failUnderTruthy cfg.report_fail_under = false := by
          simpa using hb
        simp only [hb2, Bool.false_eq_true, if_false]
        simp [failUnderTruthy]
    · rw [afterSource_exclude, hexcl1]
      simp only [Option.getD_some, sortF_toFinset]
      rw [union_sdiff_stable]
    · rw [afterSource_paths]
  rw [hfinal]

/-- C5 witness: one concrete double configuration on the empty machine
reproduces the first result exactly. -/
theorem configure_idempotent_witness :
    ∃ cfg1, configure (mkCovDefaults "" "") env0 {} = .ok cfg1 ∧
      configure (mkCovDefaults "" "") env0 cfg1 = .ok cfg1 :=
  ⟨_, rfl, configure_idempotent "" "" env0 {} _ rfl⟩

/-- Search `sufAny` accepts a list when `f` accepts one of its suffixes. -/
lemma sufAny_append (f : List Char → Bool) (t s : List Char) (h : f s = true) :
    sufAny f (t ++ s) = true := by
  induction t with
  | nil =>
    cases s with
    | nil => exact h
    | cons c s2 => simp [sufAny, h]
  | cons c t2 ih => simp [sufAny, ih]

/-- A leading `*` reduces matching to suffix search. -/
lemma gmatch_star_cons (p s : List Char) : gmatch ('*' :: p) s = sufAny (gmatch p) s := by
  simp [gmatch]

/-- A leading `*` absorbs any prefix of the subject. -/
lemma gmatch_star_prepend (p t s : List Char) (h : gmatch p s = true) :
    gmatch ('*' :: p) (t ++ s) = true := by
  rw [gmatch_star_cons]
  exact sufAny_append _ t s h

/-- The pattern `*` matches everything. -/
lemma gmatch_star_all (s : List Char) : gmatch ['*'] s = true := by
  rw [gmatch_star_cons]
  induction s with
  | nil => rfl
  | cons c s2 ih =>
    show (gmatch [] (c :: s2) || sufAny (gmatch []) s2) = true
    rw [ih]
    simp

/-- A star-free literal prefix must be consumed verbatim on both
sides. -/
lemma gmatch_lit_both (lit p s : List Char) (h : ∀ ch ∈ lit, ch ≠ '*') :
    gmatch (lit ++ p) (lit ++ s) = gmatch p s := by
  induction lit with
  | nil => rfl
  | cons c t ih =>
    have hc : c ≠ '*' := h c (by simp)
    show gmatch (c :: (t ++ p)) (c :: (t ++ s)) = gmatch p s
    simp only [gmatch, if_neg hc, beq_self_eq_true, Bool.true_and]
    exact ih (fun ch hm => h ch (by simp [hm]))

/-- A star-free pattern matches exactly itself. -/
lemma gmatch_refl (l : List Char) (h : ∀ ch ∈ l, ch ≠ '*') : gmatch l l = true := by
  have h2 := gmatch_lit_both l [] [] h
  simpa using h2

/-- A star-free literal followed by `*` matches the literal followed by
anything. -/
lemma gmatch_lit_star (lit rest : List Char) (h : ∀ ch ∈ lit, ch ≠ '*') :
    gmatch (lit ++ ['*']) (lit ++ rest) = true := by
  rw [gmatch_lit_both lit ['*'] rest h]
  exact gmatch_star_all rest

/-- Pattern `*LIT*` matches any subject containing `LIT`. -/
lemma gmatch_star_lit_star (lit t rest : List Char) (h : ∀ ch ∈ lit, ch ≠ '*') :
    gmatch ('*' :: (lit ++ ['*'])) (t ++ (lit ++ rest)) = true :=
  gmatch_star_prepend _ t _ (gmatch_lit_star lit rest h)

/-- Pattern `*LIT` matches any subject ending in `LIT`. -/
lemma gmatch_star_lit (lit t : List Char) (h : ∀ ch ∈ lit, ch ≠ '*') :
    gmatch ('*' :: lit) (t ++ lit) = true :=
  gmatch_star_prepend _ t _ (gmatch_refl lit h)

/-- Star-freeness of the literal `/level/entry/` segment. -/
lemma noStar_seg (L E : String) (hL : ∀ ch ∈ L.data, ch ≠ '*')
    (hE : ∀ ch ∈ E.data, ch ≠ '*') :
    ∀ ch ∈ ('/' :: (L.data ++ '/' :: (E.data ++ ['/']))), ch ≠ '*' := by
  intro ch hch
  simp only [List.mem_cons, List.mem_append, List.mem_singleton, List.not_mem_nil,
    or_false] at hch
  rcases hch with rfl | h | rfl | h | rfl
  · decide
  · exact hL ch h
  · decide
  · exact hE ch h
  · decide

/-- Star-freeness of the literal `/level/entry` segment. -/
lemma noStar_seg2 (L E : String) (hL : ∀ ch ∈ L.data, ch ≠ '*')
    (hE : ∀ ch ∈ E.data, ch ≠ '*') :
    ∀ ch ∈ ('/' :: (L.data ++ '/' :: E.data)), ch ≠ '*' := by
  intro ch hch
  simp only [List.mem_cons, List.mem_append] at hch
  rcases hch with rfl | h | rfl | h
  · decide
  · exact hL ch h
  · decide
  · exact hE ch h

/-- A synthesized directory pattern `*/level/entry/*` glob-matches
every path that passes through `level/entry`. -/
lemma climbPat_dir_matches (L E pre rest : String)
    (hL : ∀ ch ∈ L.data, ch ≠ '*') (hE : ∀ ch ∈ E.data, ch ≠ '*') :
    gmatchStr (mkClimbPat L E ++ "/*")
      (pre ++ "/" ++ L ++ "/" ++ E ++ "/" ++ rest) = true := by
  have hpat : (mkClimbPat L E ++ "/*").data =
      '*' :: (('/' :: (L.data ++ '/' :: (E.data ++ ['/']))) ++ ['*']) := by
    simp [mkClimbPat, String.data_append]
  have hpath : (pre ++ "/" ++ L ++ "/" ++ E ++ "/" ++ rest).data =
      pre.data ++ (('/' :: (L.data ++ '/' :: (E.data ++ ['/']))) ++ rest.data) := by
    simp [String.data_append]
  unfold gmatchStr
  rw [hpat, hpath]
  exact gmatch_star_lit_star _ _ _ (noStar_seg L E hL hE)

/-- A synthesized file pattern `*/level/entry` glob-matches the
corresponding file path under any prefix. -/
lemma climbPat_file_matches (L E pre : String)
    (hL : ∀ ch ∈ L.data, ch ≠ '*') (hE : ∀ ch ∈ E.data, ch ≠ '*') :
    gmatchStr (mkClimbPat L E) (pre ++ "/" ++ L ++ "/" ++ E) = true := by
  have hpat : (mkClimbPat L E).data = '*' :: ('/' :: (L.data ++ '/' :: E.data)) := by
    simp [mkClimbPat, String.data_append]
  have hpath : (pre ++ "/" ++ L ++ "/" ++ E).data =
      pre.data ++ ('/' :: (L.data ++ '/' :: E.data)) := by
    simp [String.data_append]
  unfold gmatchStr
  rw [hpat, hpath]
  exact gmatch_star_lit _ _ (noStar_seg2 L E hL hE)

/-- A non-child directory entry yields the directory pattern. -/
lemma climbEntry_dir (env : Env) (L child entry : String) (hne : entry ≠ child)
    (hdir : env.isdir (pjoin L entry) = true) :
    climbEntry env L child entry = some (mkClimbPat L entry ++ "/*") := by
  unfold climbEntry
  rw [if_neg hne, if_pos hdir]

/-- A non-child `.py` file entry yields the file pattern. -/
lemma climbEntry_file (env : Env) (L child entry : String) (hne : entry ≠ child)
    (hdir : env.isdir (pjoin L entry) = false) (hpy : strEnds entry ".py" = true) :
    climbEntry env L child entry = some (mkClimbPat L entry) := by
  unfold climbEntry
  rw [if_neg hne, if_neg (by simp [hdir]), if_pos hpy]

/-- A non-child non-`.py` file entry yields nothing. -/
lemma climbEntry_skip (env : Env) (L child entry : String) (hne : entry ≠ child)
    (hdir : env.isdir (pjoin L entry) = false) (hpy : strEnds entry ".py" = false) :
    climbEntry env L child entry = none := by
  unfold climbEntry
  rw [if_neg hne, if_neg (by simp [hdir]), if_neg (by simp [hpy])]

/-- Inversion: any produced pattern comes from an entry distinct from
the on-path child and has one of the two synthesized shapes. -/
lemma climbEntry_some_elim (env : Env) (L child entry pat : String)
    (h : climbEntry env L child entry = some pat) :
    entry ≠ child ∧ (pat = mkClimbPat L entry ++ "/*" ∨ pat = mkClimbPat L entry) := by
  unfold climbEntry at h
  by_cases h1 : entry = child
  · rw [if_pos h1] at h
    cases h
  · rw [if_neg h1] at h
    by_cases h2 : env.isdir (pjoin L entry) = true
    · rw [if_pos h2] at h
      injection h with h3
      exact ⟨h1, Or.inl h3.symm⟩
    · rw [if_neg h2] at h
      by_cases h3 : strEnds entry ".py" = true
      · rw [if_pos h3] at h
        injection h with h4
        exact ⟨h1, Or.inr h4.symm⟩
      · rw [if_neg h3] at h
        cases h

/-- Membership in the climb output, characterized by level and entry. -/
lemma mem_climbPatterns_iff (env : Env) (parts : List String) (pat : String) :
    pat ∈ climbPatterns env parts ↔
      ∃ i, 1 ≤ i ∧ i < parts.length ∧ ∃ entry ∈ env.listdir (levelOf parts i),
        climbEntry env (levelOf parts i) (parts.getD i "") entry = some pat := by
  unfold climbPatterns
  simp only [List.mem_flatMap, List.mem_filterMap, List.mem_range'_1]
  constructor
  · rintro ⟨i, ⟨hi1, hi2⟩, entry, hmem, hce⟩
    exact ⟨i, hi1, by omega, entry, hmem, hce⟩
  · rintro ⟨i, hi1, hi2, entry, hmem, hce⟩
    exact ⟨i, ⟨hi1, by omega⟩, entry, hmem, hce⟩

/-- C8 amended: when a source root is nested in a conventionally
ignored folder (so the folder loop climbs from the working directory to
it), then (a) the folder's additions are exactly the climb patterns;
(b) at each level strictly between the working directory and the source
root, every sibling *directory* gets a pattern that glob-matches its
whole subtree, and every sibling *`.py` file* gets a pattern that
glob-matches it, while a sibling non-Python file contributes nothing;
and (c) every climb pattern arises from some sibling entry distinct
from the on-path child — none is generated for the path to the source
root itself. -/
theorem omit_climb_sibling_patterns (env : Env) (source : List String) (folder : String)
    (isPref : Bool) (src : String) (parts : List String)
    (hfind : source.find? (fun t => strContainsSub t ("/" ++ folder ++ "/")) = some src)
    (hparts : parts = relParts env src) :
    oneFolderAdds env source folder isPref = (climbPatterns env parts).toFinset ∧
      (∀ i, 1 ≤ i → i < parts.length → ∀ entry ∈ env.listdir (levelOf parts i),
        entry ≠ parts.getD i "" →
        (∀ ch ∈ (levelOf parts i).data, ch ≠ '*') → (∀ ch ∈ entry.data, ch ≠ '*') →
        ((env.isdir (pjoin (levelOf parts i) entry) = true →
            mkClimbPat (levelOf parts i) entry ++ "/*" ∈ climbPatterns env parts ∧
              ∀ pre rest : String,
                gmatchStr (mkClimbPat (levelOf parts i) entry ++ "/*")
                  (pre ++ "/" ++ levelOf parts i ++ "/" ++ entry ++ "/" ++ rest) =
                  true) ∧
          (env.isdir (pjoin (levelOf parts i) entry) = false →
            strEnds entry ".py" = true →
              mkClimbPat (levelOf parts i) entry ∈ climbPatterns env parts ∧
                ∀ pre : String,
                  gmatchStr (mkClimbPat (levelOf parts i) entry)
                    (pre ++ "/" ++ levelOf parts i ++ "/" ++ entry) = true) ∧
          (env.isdir (pjoin (levelOf parts i) entry) = false →
            strEnds entry ".py" = false →
              climbEntry env (levelOf parts i) (parts.getD i "") entry = none))) ∧
      (∀ pat ∈ climbPatterns env parts, ∃ j entry2, 1 ≤ j ∧ j < parts.length ∧
        entry2 ∈ env.listdir (levelOf parts j) ∧ entry2 ≠ parts.getD j "" ∧
        (pat = mkClimbPat (levelOf parts j) entry2 ++ "/*" ∨
          pat = mkClimbPat (levelOf parts j) entry2)) := by
  refine ⟨?_, ?_, ?_⟩
  · unfold oneFolderAdds
    rw [hfind, hparts]
  · intro i hi1 hi2 entry hmem hne hLs hEs
    refine ⟨?_, ?_, ?_⟩
    · intro hdir
      refine ⟨?_, ?_⟩
      · rw [mem_climbPatterns_iff]
        exact ⟨i, hi1, hi2, entry, hmem, climbEntry_dir env _ _ _ hne hdir⟩
      · intro pre rest
        exact climbPat_dir_matches _ _ _ _ hLs hEs
    · intro hdir hpy
      refine ⟨?_, ?_⟩
      · rw [mem_climbPatterns_iff]
        exact ⟨i, hi1, hi2, entry, hmem, climbEntry_file env _ _ _ hne hdir hpy⟩
      · intro pre
        exact climbPat_file_matches _ _ _ hLs hEs
    · intro hdir hpy
      exact climbEntry_skip env _ _ _ hne hdir hpy
  · intro pat hpat
    rw [mem_climbPatterns_iff] at hpat
    obtain ⟨j, hj1, hj2, entry2, hmem2, hce⟩ := hpat
    obtain ⟨hne2, hform⟩ := climbEntry_some_elim env _ _ _ _ hce
    exact ⟨j, entry2, hj1, hj2, hmem2, hne2, hform⟩

/-- The nested-source-root machine of the C8 counterexample: the
working directory `/repo` declares source root `/repo/venv/src`, and
the climb level `venv` holds the on-path child `src`, a plain file
`README`, and a directory `lib`. -/
def envC8 : Env :=
  { cwd := "/repo",
    listdir := fun p => if p = "venv" then ["src", "README", "lib"] else [],
    isdir := fun p => p = "venv/lib",
    pexists := fun _ => false,
    sysPath := [], platlib := "/pl", purelib := "/pu",
    osName := "posix", platform := "linux", implName := "cpython", defaultExclude := [] }

/-- C8 counterexample: with source root `/repo/venv/src` nested in the
`venv` folder, the sibling file `README` of the ancestor level `venv`
is excluded by *no* synthesized omit pattern (the code skips non-`.py`
files), and the path `/repo/venv/src/venv/lib/x.py` *beneath the
source root* is excluded by the synthesized pattern `*/venv/lib/*` —
both halves of the claim fail on this layout. -/
theorem omit_nesting_claim_fails :
    "README" ∈ envC8.listdir "venv" ∧ "README" ≠ "src" ∧
      relParts envC8 "/repo/venv/src" = ["venv", "src"] ∧
      (¬ ∃ pat ∈ defaultOmitAdds envC8 ["/repo/venv/src"],
        gmatchStr pat "/repo/venv/README" = true) ∧
      (∃ pat ∈ defaultOmitAdds envC8 ["/repo/venv/src"],
        gmatchStr pat "/repo/venv/src/venv/lib/x.py" = true) := by
  decide

/-- C8 witness: on the counterexample machine the sibling directory
`lib` at the climb level `venv` does get its subtree pattern, and that
pattern glob-matches paths under `/repo/venv/lib`. -/
theorem omit_climb_sibling_patterns_witness :
    mkClimbPat (levelOf ["venv", "src"] 1) "lib" ++ "/*" ∈
        climbPatterns envC8 ["venv", "src"] ∧
      gmatchStr (mkClimbPat (levelOf ["venv", "src"] 1) "lib" ++ "/*")
        ("/repo" ++ "/" ++ levelOf ["venv", "src"] 1 ++ "/" ++ "lib" ++ "/" ++ "x.py") =
        true := by
  have h := omit_climb_sibling_patterns envC8 ["/repo/venv/src"] "venv" true
    "/repo/venv/src" ["venv", "src"] (by decide) (by decide)
  have h2 := (h.2.1 1 (by decide) (by decide) "lib" (by decide) (by decide)
    (by decide) (by decide)).1 (by decide)
  exact ⟨h2.1, h2.2 "/repo" "x.py"⟩
